import Mathlib

/-!
Verification of the egg-price monthly-matrix system.

The repository has two source files, `src/egg_price_automation.py` and
`src/streamlit_dashboard.py`, both containing an `EggPriceDashboard` class
(the read-only presentation layer over the persisted monthly CSV matrix).
The reconciliation core (snapshot normalizer, monthly matrix store,
reconciler, average calculator) described by the specification is not
present under `src/`; those operations are modelled from the specification
text and marked as such.

Strings are embedded as `List Char` where character-level scanning matters
(Python `str.replace` / `str.split`), and as Lean `String` elsewhere.
Prices are embedded as `ℚ`; the pandas missing value (`NaN`) is an explicit
`Cell.na` constructor, and a float `NaN` produced by `float(NaN)` is the
explicit `PValue.nan` constructor.
-/

namespace EggPrices

/-- The numeric value of a string of ASCII digits, as Python `int` computes
it (most significant digit first). -/
def digitsVal (l : List Char) : Nat :=
  l.foldl (fun a c => 10 * a + (c.toNat - 48)) 0

/-- Models Python `int(s)` restricted to nonempty all-digit strings: on any
other input `int` raises `ValueError`, which the callers in both source
files catch and turn into a `None` result. -/
def digitsToNat (l : List Char) : Option Nat :=
  if l ≠ [] ∧ l.all Char.isDigit then some (digitsVal l) else none

/-- Models Python `str.split(sep)` for a single-character separator:
`"a_b".split("_") == ["a", "b"]`, `"".split("_") == [""]`, and adjacent
separators yield empty fields. -/
def splitOnChar (sep : Char) : List Char → List (List Char)
  | [] => [[]]
  | c :: cs =>
    if c = sep then [] :: splitOnChar sep cs
    else
      match splitOnChar sep cs with
      | [] => [[c]]
      | t :: ts => (c :: t) :: ts

/-- Models Python `str.replace(old, new)`: every non-overlapping occurrence
of `old` is replaced, scanning left to right.  (Python inserts `new` at
every position when `old` is empty; all uses in the sources have a nonempty
`old`, and this model makes the empty-`old` case a no-op.) -/
def replaceAll (old new : List Char) (s : List Char) : List Char :=
  match s with
  | [] => []
  | c :: cs =>
    if h : old ≠ [] ∧ old.isPrefixOf (c :: cs) then
      new ++ replaceAll old new ((c :: cs).drop old.length)
    else
      c :: replaceAll old new cs
termination_by s.length
decreasing_by
  · simp only [List.length_drop, List.length_cons]
    have h1 : 0 < old.length := List.length_pos.mpr h.1
    omega
  · simp only [List.length_cons]
    omega

/-- Models Python `float(s)` on unsigned plain decimal notation: digits with
an optional decimal point (`"5"`, `"5.5"`, `".5"`, `"5."`); anything else
fails.  Exotic float syntax (exponents, `"nan"`, `"inf"`, surrounding
whitespace) is outside this model; the cell values this development
evaluates on are plain decimals or non-numeric junk. -/
def parseDecCore (l : List Char) : Option ℚ :=
  match splitOnChar '.' l with
  | [ip] =>
    if ip ≠ [] ∧ ip.all Char.isDigit then some ((digitsVal ip : ℚ)) else none
  | [ip, fp] =>
    if (ip ++ fp) ≠ [] ∧ (ip ++ fp).all Char.isDigit then
      some ((digitsVal ip : ℚ) + (digitsVal fp : ℚ) / (10 : ℚ) ^ fp.length)
    else none
  | _ => none

/-- Models Python `float(s)` including an optional leading sign.  In
particular `float("-")` fails (the sign with no digits), which is why the
absent sentinel `"-"` also fails numeric parse. -/
def parseDec (s : String) : Option ℚ :=
  match s.toList with
  | '-' :: rest => (parseDecCore rest).map (fun q => -q)
  | '+' :: rest => parseDecCore rest
  | l => parseDecCore l

/-- A cell of a loaded monthly CSV table: either missing (the pandas `NaN`
placed in empty fields by `read_csv`) or a string value.  A field that
pandas parsed as a number is represented by its digit string; both source
files re-parse cells with `pd.to_numeric` or `float`, for which the two
representations behave identically. -/
inductive Cell where
  | na : Cell
  | str : String → Cell
deriving DecidableEq

/-- One row of a loaded monthly CSV: the `"Name Of Zone / Day"` field is
`city` (the persisted layout always carries this column), and `cells` maps
each remaining column label to its value. -/
structure TRow where
  city : String
  cells : List (String × Cell)
deriving DecidableEq

/-- A loaded monthly CSV table: the full column list and the rows. -/
structure Table where
  cols : List String
  rows : List TRow
deriving DecidableEq

/-- Reading a field of a row by column label; a label absent from the row
reads as the missing value, exactly what pandas materialises there. -/
def getCell (r : TRow) (col : String) : Cell :=
  match r.cells.lookup col with
  | some v => v
  | none => Cell.na

/-- The pandas elementwise comparison `x != "-"` on a cell: `NaN != "-"` is
`True`, and a string compares by equality. -/
def cellNeDash : Cell → Bool
  | Cell.na => true
  | Cell.str s => s ≠ "-"

/-- A Python float value as the trend extraction sees it: an actual number,
or the `NaN` obtained by calling `float` on a missing cell. -/
inductive PValue where
  | nan : PValue
  | num : ℚ → PValue
deriving DecidableEq

/-- Python `float(x)` on a cell: on the missing value it succeeds and
returns `NaN` (`float(nan) == nan`), on a string it parses or raises. -/
def tryFloat : Cell → Option PValue
  | Cell.na => some PValue.nan
  | Cell.str s => (parseDec s).map PValue.num

/-- Models `load_monthly_data` of both source files
(`src/egg_price_automation.py` lines 31-45, `src/streamlit_dashboard.py`
lines 43-57, identical code): strip `"egg_prices_"` and `".csv"` from the
file name with `str.replace`, split on `"_"`, and convert both parts with
`int`.  The file-reading side (`pd.read_csv`) is I/O and outside the model;
this captures the year/month recovery, with `none` for the `except` branch
(wrong number of fields or a non-integer field). -/
def load_monthly_data_ym (filename : List Char) : Option (Nat × Nat) :=
  let ym := replaceAll (".csv".toList) [] (replaceAll ("egg_prices_".toList) [] filename)
  match splitOnChar '_' ym with
  | [y, m] =>
    match digitsToNat y, digitsToNat m with
    | some yi, some mi => some (yi, mi)
    | _, _ => none
  | _ => none

namespace EggPriceAutomation

/-- Translated from `src/egg_price_automation.py` lines 47-63
(`get_current_prices(df, day)`): if the day column is missing return
`None`; otherwise project city and day columns, filter out `"-"` cells,
filter out missing cells (`notna`), convert to numeric with coercion and
drop the failures, and sort by price descending (`sort_values("Price",
ascending=False)`, embedded as an insertion sort by descending price).
`pd.to_numeric` followed by `dropna` keeps exactly the cells whose numeric
parse succeeds. -/
def get_current_prices (df : Table) (day : Nat) : Option (List (String × ℚ)) :=
  let day_col := toString day
  if day_col ∈ df.cols then
    let current0 := df.rows.map (fun r => (r.city, getCell r day_col))
    let current1 := current0.filter (fun p => cellNeDash p.2)
    let current2 := current1.filter (fun p => p.2 ≠ Cell.na)
    let current3 := current2.filterMap (fun p =>
      match p.2 with
      | Cell.na => none
      | Cell.str s => (parseDec s).map (fun q => (p.1, q)))
    some (current3.insertionSort (fun a b => b.2 ≤ a.2))
  else
    none

/-- The call-level view of `get_current_prices`: the method copies the
frame (`.copy()`, line 54) before any filtering, so the caller's `df` is
returned unchanged alongside the result. -/
def get_current_prices_call (df : Table) (day : Nat) :
    Option (List (String × ℚ)) × Table :=
  (get_current_prices df day, df)

/-- Translated from `src/egg_price_automation.py` lines 65-102
(`get_price_trends(df, city)`).  `nowDays` is the day count of the month of
`datetime.now()`: `datetime.now().replace(day=day)` raises `ValueError`
exactly when `day > nowDays`, and that exception is swallowed by the inner
`except: pass` after the price was already appended.  The final length
comparison models the `pd.DataFrame` constructor, which raises on
mismatched column lengths; the outer `except` turns that into `None`. -/
def get_price_trends (nowDays : Nat) (df : Table) (city : String) :
    Option (List (Nat × PValue)) :=
  match df.rows.find? (fun r => r.city == city) with
  | none => none
  | some city_data =>
    let collected := (List.range' 1 31).foldl
      (fun (acc : List Nat × List PValue) day =>
        let day_col := toString day
        if day_col ∈ df.cols ∧ cellNeDash (getCell city_data day_col) then
          match tryFloat (getCell city_data day_col) with
          | some v =>
            (if day ≤ nowDays then acc.1 ++ [day] else acc.1, acc.2 ++ [v])
          | none => acc
        else acc)
      ([], [])
    if collected.2 = [] then none
    else if collected.1.length = collected.2.length then
      some (collected.1.zip collected.2)
    else none

end EggPriceAutomation

namespace StreamlitDashboard

/-- Translated from `src/streamlit_dashboard.py` lines 59-78
(`get_current_prices(df)`): identical pipeline to the other variant except
that the day is taken from `datetime.now().day`, modelled as the `nowDay`
argument. -/
def get_current_prices (nowDay : Nat) (df : Table) : Option (List (String × ℚ)) :=
  let today_col := toString nowDay
  if today_col ∈ df.cols then
    let current0 := df.rows.map (fun r => (r.city, getCell r today_col))
    let current1 := current0.filter (fun p => cellNeDash p.2)
    let current2 := current1.filter (fun p => p.2 ≠ Cell.na)
    let current3 := current2.filterMap (fun p =>
      match p.2 with
      | Cell.na => none
      | Cell.str s => (parseDec s).map (fun q => (p.1, q)))
    some (current3.insertionSort (fun a b => b.2 ≤ a.2))
  else
    none

/-- Translated from `src/streamlit_dashboard.py` lines 80-117
(`get_price_trends(df, city)`), which is textually identical to the variant
in `src/egg_price_automation.py`; see that translation for the modelling of
`datetime.now()` and of the `pd.DataFrame` length check. -/
def get_price_trends (nowDays : Nat) (df : Table) (city : String) :
    Option (List (Nat × PValue)) :=
  match df.rows.find? (fun r => r.city == city) with
  | none => none
  | some city_data =>
    let collected := (List.range' 1 31).foldl
      (fun (acc : List Nat × List PValue) day =>
        let day_col := toString day
        if day_col ∈ df.cols ∧ cellNeDash (getCell city_data day_col) then
          match tryFloat (getCell city_data day_col) with
          | some v =>
            (if day ≤ nowDays then acc.1 ++ [day] else acc.1, acc.2 ++ [v])
          | none => acc
        else acc)
      ([], [])
    if collected.2 = [] then none
    else if collected.1.length = collected.2.length then
      some (collected.1.zip collected.2)
    else none

end StreamlitDashboard

/-- The claim-side characterization of the day-`day` price extraction: the
rows whose cell for the day column is a string that is not the absent
sentinel `"-"` and parses numerically, each paired with its parsed price,
in table order. -/
def parsedPrices (df : Table) (day : Nat) : List (String × ℚ) :=
  df.rows.filterMap (fun r =>
    match getCell r (toString day) with
    | Cell.na => none
    | Cell.str s => if s = "-" then none else (parseDec s).map (fun q => (r.city, q)))

/-- The claim-side characterization of trend extraction for one city row:
the days 1..31 whose column is present and whose cell is not `"-"` and
yields a float, each paired with that float value, in day order. -/
def trendDays (df : Table) (row : TRow) : List (Nat × PValue) :=
  (List.range' 1 31).filterMap (fun day =>
    if toString day ∈ df.cols ∧ cellNeDash (getCell row (toString day)) then
      (tryFloat (getCell row (toString day))).map (fun v => (day, v))
    else none)

/-! The reconciliation core.  The spec's Reconciler, Average Calculator and
Monthly Matrix Store are code of this repository that is not under `src/`
(only the dashboard reader of the persisted matrix is); the following
definitions are modelled from the specification text (§3, §4.2-§4.4, §9). -/

/-- Modelled from the spec: a snapshot (§4.1, glossary) — the normalizer's
output, an ordered mapping city name → price-or-absent for one day. -/
abbrev Snapshot := List (String × Option ℚ)

/-- Modelled from the spec (§3, §9): one monthly-matrix row — a city key,
an ordered day-cell sequence (index `i` holds day `i + 1`; `none` is the
explicit absent marker), and a derived Average cell. -/
structure MRow where
  city : String
  cells : List (Option ℚ)
  avg : Option ℚ
deriving DecidableEq

/-- Modelled from the spec (§3): the monthly matrix — the day-column count
(columns 1..`numDays`) and the city rows in arena order. -/
structure Matrix where
  numDays : Nat
  rows : List MRow
deriving DecidableEq

/-- Whether a city already has a row in the matrix. -/
def rowExists (m : Matrix) (c : String) : Bool :=
  m.rows.any (fun r => r.city == c)

/-- A fresh city row with every day column defaulted to absent (§4.3). -/
def blankRow (c : String) (n : Nat) : MRow :=
  ⟨c, List.replicate n none, none⟩

/-- Setting the cell of day `day` (1-based) of a row to a real price. -/
def setCell (r : MRow) (day : Nat) (p : ℚ) : MRow :=
  { r with cells := r.cells.set (day - 1) (some p) }

/-- Modelled from the spec (§4.3 Reconciler): processing one snapshot
entry — an absent price is skipped; a priced city updates its existing
row's day cell, or is appended as a new all-absent row with that day
set. -/
def reconcileStep (day : Nat) (m : Matrix) (cp : String × Option ℚ) : Matrix :=
  match cp.2 with
  | none => m
  | some p =>
    if rowExists m cp.1 then
      { m with rows := m.rows.map (fun r => if r.city = cp.1 then setCell r day p else r) }
    else
      { m with rows := m.rows ++ [setCell (blankRow cp.1 m.numDays) day p] }

/-- Modelled from the spec (§4.3): `reconcile(matrix, day, snapshot)` folds
the snapshot entries into the matrix for one day column. -/
def reconcile (m : Matrix) (day : Nat) (s : Snapshot) : Matrix :=
  s.foldl (reconcileStep day) m

/-- Rounding to two decimal digits, as the spec's
`round(mean(values), 2)` (§4.4).  Ties round half-up; the spec does not
fix a tie-breaking rule, and no value in this development sits on an exact
half-cent tie. -/
def roundTo2 (q : ℚ) : ℚ :=
  mkRat (Rat.floor (q * 100 + 1 / 2)) 100

/-- Modelled from the spec (§4.4 Average Calculator): the Average cell of
one row — the rounded mean of the non-absent day cells, or absent when no
day has data. -/
def rowAverage (cells : List (Option ℚ)) : Option ℚ :=
  let vals := cells.filterMap id
  if vals = [] then none
  else some (roundTo2 (vals.sum / (vals.length : ℚ)))

/-- Modelled from the spec (§4.4): `recompute_averages(matrix)` recomputes
every city's Average cell from its day cells. -/
def recompute_averages (m : Matrix) : Matrix :=
  { m with rows := m.rows.map (fun r => { r with avg := rowAverage r.cells }) }

/-- Modelled from the spec (§4.2): the Gregorian leap-year rule February
depends on. -/
def isLeap (y : Nat) : Bool :=
  (y % 4 == 0 && y % 100 != 0) || y % 400 == 0

/-- Modelled from the spec (§4.2): the calendar length of a month (28-31,
leap-year aware for February). -/
def daysInMonth (y m : Nat) : Nat :=
  if m = 2 then (if isLeap y then 29 else 28)
  else if m = 4 ∨ m = 6 ∨ m = 9 ∨ m = 11 then 30
  else 31

/-- Modelled from the spec (§4.2 Monthly Matrix Store):
`load_or_create(year, month)` with the persisted state passed explicitly
(`none` = no persisted state).  Empty storage yields a zero-city matrix
with day columns 1..N; an existing matrix short of day columns is extended
in place with absent-filled columns, never truncated. -/
def load_or_create (store : Option Matrix) (y m : Nat) : Matrix :=
  let n := daysInMonth y m
  match store with
  | none => ⟨n, []⟩
  | some mx =>
    ⟨max mx.numDays n,
     mx.rows.map (fun r => { r with cells := r.cells ++ List.replicate (n - r.cells.length) none })⟩

/-- Proof-side device: the last non-absent price recorded for city `c` in
a snapshot, scanning in order (later entries win). -/
def lastPrice (c : String) : Snapshot → Option ℚ
  | [] => none
  | cp :: t =>
    match lastPrice c t with
    | some q => some q
    | none => if cp.1 = c then cp.2 else none

/-- Proof-side device: the net effect of one reconciliation pass on a row
that is already present — its day cell receives the last price its city
carries in the snapshot, if any. -/
def updRow (day : Nat) (s : Snapshot) (r : MRow) : MRow :=
  match lastPrice r.city s with
  | some p => setCell r day p
  | none => r

/-- The row of city `c`, if the matrix has one. -/
def findRow (m : Matrix) (c : String) : Option MRow :=
  m.rows.find? (fun r => r.city == c)

/-- Proof-side device: one iteration of the date/price accumulation loop
inside `get_price_trends`; both source variants elaborate to exactly this
step function. -/
def trendStep (nowDays : Nat) (df : Table) (row : TRow)
    (acc : List Nat × List PValue) (day : Nat) : List Nat × List PValue :=
  let day_col := toString day
  if day_col ∈ df.cols ∧ cellNeDash (getCell row day_col) then
    match tryFloat (getCell row day_col) with
    | some v => (if day ≤ nowDays then acc.1 ++ [day] else acc.1, acc.2 ++ [v])
    | none => acc
  else acc

/-! Concrete tables and matrices used by the witnesses and the
counterexample. -/

/-- A five-city table for day 5: one clean price, the absent sentinel, a
missing cell, unparseable junk, and a second clean price. -/
def exTableC5 : Table :=
  ⟨["Name Of Zone / Day", "5"],
   [⟨"Delhi", [("5", Cell.str "550")]⟩,
    ⟨"Mumbai", [("5", Cell.str "-")]⟩,
    ⟨"Chennai", [("5", Cell.na)]⟩,
    ⟨"Pune", [("5", Cell.str "abc")]⟩,
    ⟨"Kolkata", [("5", Cell.str "600")]⟩]⟩

/-- A three-city table for day 7 with out-of-order prices. -/
def exTableC8 : Table :=
  ⟨["Name Of Zone / Day", "7"],
   [⟨"Hyderabad", [("7", Cell.str "480")]⟩,
    ⟨"Bengaluru", [("7", Cell.str "610")]⟩,
    ⟨"Ajmer", [("7", Cell.str "525")]⟩]⟩

/-- A one-row, one-day table used for the missing-day-column claim. -/
def exTableC9 : Table :=
  ⟨["Name Of Zone / Day", "1"],
   [⟨"Delhi", [("1", Cell.str "550")]⟩]⟩

/-- The row of the date-abort counterexample table: parseable prices on
days 1 and 31. -/
def exRowC6bad : TRow :=
  ⟨"Delhi", [("1", Cell.str "100"), ("31", Cell.str "500")]⟩

/-- The date-abort counterexample table: day columns 1 and 31 only. -/
def exTableC6bad : Table :=
  ⟨["Name Of Zone / Day", "1", "31"], [exRowC6bad]⟩

/-- The row of the parse-degradation witness table: an absent sentinel, an
unparseable cell, and a clean price. -/
def exRowC6 : TRow :=
  ⟨"Delhi", [("1", Cell.str "-"), ("2", Cell.str "abc"), ("3", Cell.str "550")]⟩

/-- The parse-degradation witness table. -/
def exTableC6 : Table :=
  ⟨["Name Of Zone / Day", "1", "2", "3"], [exRowC6]⟩

/-- A one-city five-day matrix with a real price on day 1. -/
def exMatrixC2 : Matrix :=
  ⟨5, [⟨"Mumbai", [some 500, none, none, none, none], none⟩]⟩

/-- A snapshot carrying a real price for a new city and an absent price for
the existing one. -/
def exSnapC2 : Snapshot :=
  [("Delhi", some 550), ("Mumbai", none)]

/-- The spec's Average example (§8): day values 100, 120, absent, 110. -/
def exMatrixC3 : Matrix :=
  ⟨4, [⟨"Delhi", [some 100, some 120, none, some 110], none⟩]⟩

/-- The row `recompute_averages` produces from the spec's Average
example. -/
def exRowC3 : MRow :=
  ⟨"Delhi", [some 100, some 120, none, some 110], some 110⟩

/-! ## Theorems -/

/- Batteries marks the rational-number operations irreducible, which blocks
the reduction `decide` relies on; witnesses evaluate concrete rational
arithmetic, so restore reducibility locally. -/
attribute [local semireducible] Rat.add Rat.mul Rat.inv Rat.sub

/-- Helper: the four-stage pandas pipeline of `get_current_prices`
(project, filter `"-"`, filter `notna`, numeric-coerce and drop failures)
keeps exactly the rows whose cell parses, in table order. -/
theorem pipeline_filterMap_eq (rows : List TRow) (c : String) :
    ((((rows.map (fun r => (r.city, getCell r c))).filter
          (fun p => cellNeDash p.2)).filter
        (fun p => p.2 ≠ Cell.na)).filterMap (fun p =>
      match p.2 with
      | Cell.na => none
      | Cell.str s => (parseDec s).map (fun q => (p.1, q)))) =
      rows.filterMap (fun r =>
        match getCell r c with
        | Cell.na => none
        | Cell.str s => if s = "-" then none
                        else (parseDec s).map (fun q => (r.city, q))) := by
  induction rows with
  | nil => rfl
  | cons r rs ih =>
    simp only [List.map_cons, List.filter_cons, List.filterMap_cons]
    cases hc : getCell r c with
    | na => simpa [cellNeDash] using ih
    | str s =>
      by_cases hs : s = "-"
      · subst hs
        simpa [cellNeDash] using ih
      · cases hp : parseDec s with
        | none => simpa [cellNeDash, hs, hp] using ih
        | some q => simpa [cellNeDash, hs, hp] using ih

/-- C9: for every loaded table, if the requested day's column (the day
number as a string) is not among the table's columns, `get_current_prices`
returns `None` rather than raising, and the input table is left
unchanged. -/
theorem get_current_prices_missing_day (df : Table) (day : Nat)
    (h : toString day ∉ df.cols) :
    EggPriceAutomation.get_current_prices_call df day = (none, df) := by
  simp [EggPriceAutomation.get_current_prices_call,
    EggPriceAutomation.get_current_prices, h]

/-- Witness for C9: a table whose day columns stop at 1, queried for
day 5. -/
theorem get_current_prices_missing_day_witness :
    EggPriceAutomation.get_current_prices_call exTableC9 5 = (none, exTableC9) :=
  get_current_prices_missing_day exTableC9 5 (by decide)

/-- C10: the two duplicated dashboard variants agree on trend extraction:
for every current-month day count, table and city, `get_price_trends` of
`src/egg_price_automation.py` and of `src/streamlit_dashboard.py` return
the same result. -/
theorem get_price_trends_variants_agree (nowDays : Nat) (df : Table)
    (city : String) :
    EggPriceAutomation.get_price_trends nowDays df city =
      StreamlitDashboard.get_price_trends nowDays df city := rfl

/-- C4: when no persisted state exists, `load_or_create` returns a matrix
with zero cities and exactly the day columns 1..N, where N is the calendar
length of the month; in particular `load_or_create(2024, 2)` has day
columns 1..29 (leap year) and zero cities. -/
theorem load_or_create_new_month :
    (∀ y m : Nat, (load_or_create none y m).rows = [] ∧
      (load_or_create none y m).numDays = daysInMonth y m) ∧
    (load_or_create none 2024 2).numDays = 29 ∧
    (load_or_create none 2024 2).rows = [] :=
  ⟨fun _ _ => ⟨rfl, rfl⟩, by decide, rfl⟩

/-- C5: the dashboard read path tolerates the absent sentinel and
non-numeric cells: whenever `get_current_prices` produces a result, that
result is a permutation (the descending sort) of exactly the rows whose
day cell is present, not `"-"`, and parses numerically — so every bad row
is excluded and every returned price is a parsed number. -/
theorem get_current_prices_filters (df : Table) (day : Nat)
    (res : List (String × ℚ))
    (h : EggPriceAutomation.get_current_prices df day = some res) :
    res.Perm (parsedPrices df day) := by
  simp only [EggPriceAutomation.get_current_prices] at h
  split at h
  · rw [Option.some_inj] at h
    subst h
    exact (List.perm_insertionSort _ _).trans
      (by rw [pipeline_filterMap_eq]; exact List.Perm.refl _)
  · exact absurd h (by simp)

/-- Witness for C5: on the five-city table the result keeps exactly the
two parseable rows. -/
theorem get_current_prices_filters_witness :
    List.Perm [("Kolkata", (600 : ℚ)), ("Delhi", 550)]
      (parsedPrices exTableC5 5) :=
  get_current_prices_filters exTableC5 5 _ (by decide)

/-- C8: whenever `get_current_prices` returns data, the rows are sorted by
price in descending (non-increasing) order. -/
theorem get_current_prices_sorted_desc (df : Table) (day : Nat)
    (res : List (String × ℚ))
    (h : EggPriceAutomation.get_current_prices df day = some res) :
    res.Pairwise (fun a b => b.2 ≤ a.2) := by
  haveI : IsTotal (String × ℚ) (fun a b => b.2 ≤ a.2) :=
    ⟨fun a b => le_total b.2 a.2⟩
  haveI : IsTrans (String × ℚ) (fun a b => b.2 ≤ a.2) :=
    ⟨fun _ _ _ hab hbc => le_trans hbc hab⟩
  simp only [EggPriceAutomation.get_current_prices] at h
  split at h
  · rw [Option.some_inj] at h
    subst h
    exact List.sorted_insertionSort _ _
  · exact absurd h (by simp)

/-- Witness for C8: the three out-of-order prices come back sorted
descending. -/
theorem get_current_prices_sorted_desc_witness :
    List.Pairwise (fun a b => b.2 ≤ a.2)
      [("Bengaluru", (610 : ℚ)), ("Ajmer", 525), ("Hyderabad", 480)] :=
  get_current_prices_sorted_desc exTableC8 7 _ (by decide)

/-- Unfolding equation of `replaceAll` on the empty string. -/
theorem replaceAll_eq_nil (old new : List Char) :
    replaceAll old new [] = [] := by
  rw [replaceAll.eq_def]

/-- Unfolding equation of `replaceAll` at a match position. -/
theorem replaceAll_cons_pos (old new : List Char) (c : Char) (cs : List Char)
    (h1 : old ≠ []) (h2 : old.isPrefixOf (c :: cs)) :
    replaceAll old new (c :: cs) =
      new ++ replaceAll old new ((c :: cs).drop old.length) := by
  rw [replaceAll.eq_def]
  exact dif_pos ⟨h1, h2⟩

/-- Unfolding equation of `replaceAll` at a non-match position. -/
theorem replaceAll_cons_neg (old new : List Char) (c : Char) (cs : List Char)
    (h : ¬(old ≠ [] ∧ old.isPrefixOf (c :: cs))) :
    replaceAll old new (c :: cs) = c :: replaceAll old new cs := by
  rw [replaceAll.eq_def]
  exact dif_neg h

/-- A string avoiding the first character of `old` contains no occurrence
of `old`, so `replaceAll` leaves it alone. -/
theorem replaceAll_of_head_notMem (o : Char) (os new s : List Char)
    (h : o ∉ s) : replaceAll (o :: os) new s = s := by
  induction s with
  | nil => exact replaceAll_eq_nil _ _
  | cons c cs ih =>
    have hco : ¬(o == c) = true := by
      simp only [beq_iff_eq]
      intro hoc
      exact h (hoc ▸ List.mem_cons_self c cs)
    rw [replaceAll_cons_neg]
    · rw [ih (fun hmem => h (List.mem_cons_of_mem _ hmem))]
    · rintro ⟨-, hpre⟩
      exact hco (by simpa [List.isPrefixOf] using And.left (by simpa [List.isPrefixOf] using hpre))

/-- Deleting a suffix occurrence of `old` whose first character appears
nowhere earlier. -/
theorem replaceAll_strip_end (o : Char) (os p : List Char) (h : o ∉ p) :
    replaceAll (o :: os) [] (p ++ (o :: os)) = p := by
  induction p with
  | nil =>
    rw [List.nil_append,
      replaceAll_cons_pos (o :: os) [] o os (by simp) (by simp [List.isPrefixOf_iff_prefix])]
    simp [replaceAll_eq_nil]
  | cons c cs ih =>
    have hco : o ≠ c := fun hoc => h (hoc ▸ List.mem_cons_self c cs)
    rw [List.cons_append, replaceAll_cons_neg]
    · rw [ih (fun hmem => h (List.mem_cons_of_mem _ hmem))]
    · rintro ⟨-, hpre⟩
      have : (o == c) = true := And.left (by simpa [List.isPrefixOf] using hpre)
      exact hco (by simpa using this)

/-- A separator-free string does not split. -/
theorem splitOnChar_of_notMem (sep : Char) (b : List Char) (h : sep ∉ b) :
    splitOnChar sep b = [b] := by
  induction b with
  | nil => rfl
  | cons c cs ih =>
    have hcs : c ≠ sep := fun hc => h (hc ▸ List.mem_cons_self c cs)
    rw [splitOnChar, if_neg hcs, ih (fun hmem => h (List.mem_cons_of_mem _ hmem))]

/-- Splitting at the single separator between two separator-free parts. -/
theorem splitOnChar_append (sep : Char) (a b : List Char) (h : sep ∉ a) :
    splitOnChar sep (a ++ sep :: b) = a :: splitOnChar sep b := by
  induction a with
  | nil => rw [List.nil_append, splitOnChar, if_pos rfl]
  | cons c cs ih =>
    have hcs : c ≠ sep := fun hc => h (hc ▸ List.mem_cons_self c cs)
    rw [List.cons_append, splitOnChar, if_neg hcs,
      ih (fun hmem => h (List.mem_cons_of_mem _ hmem))]

/-- A digit is not one of the structural characters of the file-name
scheme. -/
theorem isDigit_ne_special (c : Char) (h : c.isDigit = true) :
    c ≠ 'e' ∧ c ≠ '_' ∧ c ≠ '.' := by
  refine ⟨fun hc => ?_, fun hc => ?_, fun hc => ?_⟩ <;>
    (subst hc; exact absurd h (by decide))

/-- C7: filename round-trip — for every file name of the form
`egg_prices_<year>_<month>.csv` with nonempty digit strings for the year
and the (zero-padded) month, `load_monthly_data` recovers exactly the
encoded year and month as integers. -/
theorem load_monthly_data_roundtrip (y m : List Char) (hy : y ≠ [])
    (hm : m ≠ []) (hyd : ∀ c ∈ y, c.isDigit = true)
    (hmd : ∀ c ∈ m, c.isDigit = true) :
    load_monthly_data_ym
        ("egg_prices_".toList ++ (y ++ '_' :: (m ++ ".csv".toList))) =
      some (digitsVal y, digitsVal m) := by
  have hEe : "egg_prices_".toList = 'e' :: "gg_prices_".toList := by decide
  have hCs : ".csv".toList = '.' :: "csv".toList := by decide
  have hyE : ∀ c ∈ y, c ≠ 'e' ∧ c ≠ '_' ∧ c ≠ '.' :=
    fun c hc => isDigit_ne_special c (hyd c hc)
  have hmE : ∀ c ∈ m, c ≠ 'e' ∧ c ≠ '_' ∧ c ≠ '.' :=
    fun c hc => isDigit_ne_special c (hmd c hc)
  have step1 : replaceAll ("egg_prices_".toList) []
      ("egg_prices_".toList ++ (y ++ '_' :: (m ++ ".csv".toList))) =
      y ++ '_' :: (m ++ ".csv".toList) := by
    have hpre : ("egg_prices_".toList).isPrefixOf
        ("egg_prices_".toList ++ (y ++ '_' :: (m ++ ".csv".toList))) := by
      simp [List.isPrefixOf_iff_prefix]
    rw [hEe] at hpre ⊢
    rw [List.cons_append,
      replaceAll_cons_pos _ _ _ _ (by simp) (by rw [← List.cons_append]; exact hpre)]
    rw [← List.cons_append, List.drop_left]
    rw [List.nil_append]
    apply replaceAll_of_head_notMem
    intro hmem
    rcases List.mem_append.mp hmem with hmy | hrest
    · exact (hyE _ hmy).1 rfl
    · rcases List.mem_cons.mp hrest with hu | hrest2
      · exact absurd hu (by decide)
      · rcases List.mem_append.mp hrest2 with hmm | hcsv
        · exact (hmE _ hmm).1 rfl
        · exact absurd hcsv (by decide)
  have step2 : replaceAll (".csv".toList) [] (y ++ '_' :: (m ++ ".csv".toList)) =
      y ++ '_' :: m := by
    have hassoc : y ++ '_' :: (m ++ ".csv".toList) =
        (y ++ '_' :: m) ++ ".csv".toList := by
      simp
    rw [hassoc, hCs]
    apply replaceAll_strip_end
    intro hmem
    rcases List.mem_append.mp hmem with hmy | hrest
    · exact (hyE _ hmy).2.2 rfl
    · rcases List.mem_cons.mp hrest with hu | hmm
      · exact absurd hu (by decide)
      · exact (hmE _ hmm).2.2 rfl
  have step3 : splitOnChar '_' (y ++ '_' :: m) = [y, m] := by
    rw [splitOnChar_append '_' y m (fun hmem => ((hyE _ hmem).2.1 rfl : False)),
      splitOnChar_of_notMem '_' m (fun hmem => ((hmE _ hmem).2.1 rfl : False))]
  have step4y : digitsToNat y = some (digitsVal y) := by
    simp [digitsToNat, hy, List.all_eq_true.mpr hyd]
  have step4m : digitsToNat m = some (digitsVal m) := by
    simp [digitsToNat, hm, List.all_eq_true.mpr hmd]
  simp only [load_monthly_data_ym, step1, step2, step3, step4y, step4m]

/-- Witness for C7: the canonical file name of February 2024. -/
theorem load_monthly_data_roundtrip_witness :
    load_monthly_data_ym ("egg_prices_2024_02.csv".toList) = some (2024, 2) := by
  have h := load_monthly_data_roundtrip ("2024".toList) ("02".toList)
    (by decide) (by decide) (by decide) (by decide)
  have heq : "egg_prices_2024_02.csv".toList =
      "egg_prices_".toList ++ ("2024".toList ++ '_' :: ("02".toList ++ ".csv".toList)) := by
    decide
  rw [heq, h]
  decide

/-- Counterexample to C6 as stated: with the current month 30 days long, a
parseable cell in column 31 makes `datetime.now().replace(day=31)` raise
after its price was already appended; the mismatched date/price lists then
make the `pd.DataFrame` constructor raise, and the whole trend degrades to
`None` even though day cells (1 and 31) parsed to numbers — so "the result
is None exactly when no day cell parses" fails, and a parseable cell (day
1) fails to contribute to any returned trend. -/
theorem get_price_trends_date_abort :
    EggPriceAutomation.get_price_trends 30 exTableC6bad "Delhi" = none ∧
      trendDays exTableC6bad exRowC6bad =
        [(1, PValue.num 100), (31, PValue.num 500)] := by
  exact ⟨by decide, by decide⟩

/-- Helper: the date/price accumulation loop, run over days that are all
valid days of the current month whenever they contribute, appends the date
and price projections of the extracted (day, value) list. -/
theorem trendStep_fold (nowDays : Nat) (df : Table) (row : TRow)
    (days : List Nat) (acc : List Nat × List PValue)
    (H : ∀ d ∈ days, (toString d ∈ df.cols ∧ cellNeDash (getCell row (toString d))) →
      (tryFloat (getCell row (toString d))).isSome = true → d ≤ nowDays) :
    days.foldl (trendStep nowDays df row) acc =
      (acc.1 ++ (days.filterMap (fun day =>
          if toString day ∈ df.cols ∧ cellNeDash (getCell row (toString day)) then
            (tryFloat (getCell row (toString day))).map (fun v => (day, v))
          else none)).map Prod.fst,
       acc.2 ++ (days.filterMap (fun day =>
          if toString day ∈ df.cols ∧ cellNeDash (getCell row (toString day)) then
            (tryFloat (getCell row (toString day))).map (fun v => (day, v))
          else none)).map Prod.snd) := by
  induction days generalizing acc with
  | nil => simp
  | cons d ds ih =>
    rw [List.foldl_cons, List.filterMap_cons]
    by_cases hcond : toString d ∈ df.cols ∧ cellNeDash (getCell row (toString d))
    · cases hv : tryFloat (getCell row (toString d)) with
      | some v =>
        have hd : d ≤ nowDays :=
          H d (List.mem_cons_self d ds) hcond (by rw [hv]; rfl)
        have hstep : trendStep nowDays df row acc d = (acc.1 ++ [d], acc.2 ++ [v]) := by
          simp [trendStep, hcond, hv, hd]
        rw [hstep, ih _ (fun x hx => H x (List.mem_cons_of_mem d hx))]
        simp [hcond, hv]
      | none =>
        have hstep : trendStep nowDays df row acc d = acc := by
          simp [trendStep, hcond, hv]
        rw [hstep, ih _ (fun x hx => H x (List.mem_cons_of_mem d hx))]
        simp [hcond, hv]
    · have hstep : trendStep nowDays df row acc d = acc := by
        simp [trendStep, hcond]
      rw [hstep, ih _ (fun x hx => H x (List.mem_cons_of_mem d hx))]
      simp [hcond]

/-- Helper: `get_price_trends`, once the city row is found, is the
accumulation loop followed by the emptiness and length checks. -/
theorem get_price_trends_eq_fold (nowDays : Nat) (df : Table) (city : String)
    (row : TRow) (hrow : df.rows.find? (fun r => r.city == city) = some row) :
    EggPriceAutomation.get_price_trends nowDays df city =
      (let collected := (List.range' 1 31).foldl (trendStep nowDays df row) ([], []);
       if collected.2 = [] then none
       else if collected.1.length = collected.2.length then
         some (collected.1.zip collected.2)
       else none) := by
  unfold EggPriceAutomation.get_price_trends
  rw [hrow]
  rfl

/-- C6 amended: parse degradation never aborts a whole row *provided every
contributing day number is a valid day of the current month* (the date
construction `datetime.now().replace(day=day)` otherwise raises and aborts
the whole trend to `None`): under that hypothesis, for every city row, a
day cell whose value is `"-"` or whose float parse fails is skipped without
raising, all other float-yielding day cells contribute exactly their (day,
value) pairs in day order, and the result is `None` exactly when no day
cell yields a float. -/
theorem get_price_trends_parse_degradation (nowDays : Nat) (df : Table)
    (city : String) (row : TRow)
    (hrow : df.rows.find? (fun r => r.city == city) = some row)
    (H : ∀ d ∈ List.range' 1 31,
      (toString d ∈ df.cols ∧ cellNeDash (getCell row (toString d))) →
      (tryFloat (getCell row (toString d))).isSome = true → d ≤ nowDays) :
    EggPriceAutomation.get_price_trends nowDays df city =
      if trendDays df row = [] then none else some (trendDays df row) := by
  rw [get_price_trends_eq_fold nowDays df city row hrow]
  simp only [trendStep_fold nowDays df row (List.range' 1 31) ([], []) H,
    List.nil_append]
  simp only [trendDays]
  by_cases hext : (List.range' 1 31).filterMap (fun day =>
      if toString day ∈ df.cols ∧ cellNeDash (getCell row (toString day)) then
        (tryFloat (getCell row (toString day))).map (fun v => (day, v))
      else none) = []
  · simp [hext]
  · simp only [List.map_eq_nil_iff, hext, if_false, List.length_map,
      if_true, List.zip_map']
    simp

/-- Witness for C6 (amended): with a 31-day current month, the sentinel
cell and the unparseable cell are skipped and the clean price on day 3
forms the trend. -/
theorem get_price_trends_parse_degradation_witness :
    EggPriceAutomation.get_price_trends 31 exTableC6 "Delhi" =
      if trendDays exTableC6 exRowC6 = [] then none
      else some (trendDays exTableC6 exRowC6) :=
  get_price_trends_parse_degradation 31 exTableC6 "Delhi" exRowC6 (by decide)
    (fun d hd _ _ => by
      obtain ⟨i, hi, rfl⟩ := List.mem_range'.mp hd
      omega)

/-- Setting a day cell does not change the row's city. -/
theorem setCell_city (r : MRow) (day : Nat) (p : ℚ) :
    (setCell r day p).city = r.city := rfl

/-- Setting the same day cell twice keeps only the second write. -/
theorem setCell_setCell (r : MRow) (day : Nat) (p q : ℚ) :
    setCell (setCell r day p) day q = setCell r day q := by
  simp [setCell, List.set_set]

/-- The city-conditional update of one reconciliation step preserves every
row's city. -/
theorem upd_city (day : Nat) (p : ℚ) (c1 : String) :
    ∀ r : MRow, ((if r.city = c1 then setCell r day p else r) : MRow).city = r.city := by
  intro r
  split <;> rfl

/-- Unfolding `rowExists` on an explicit matrix. -/
theorem rowExists_mk (n : Nat) (rows : List MRow) (c : String) :
    rowExists ⟨n, rows⟩ c = rows.any (fun r => r.city == c) := rfl

/-- Unfolding `findRow` on an explicit matrix. -/
theorem findRow_mk (n : Nat) (rows : List MRow) (c : String) :
    findRow ⟨n, rows⟩ c = rows.find? (fun r => r.city == c) := rfl

/-- One step on an absent price is a no-op. -/
theorem reconcileStep_none (day : Nat) (m : Matrix) (cp : String × Option ℚ)
    (h : cp.2 = none) : reconcileStep day m cp = m := by
  simp only [reconcileStep, h]

/-- One step on a real price updates the existing row or appends a fresh
one. -/
theorem reconcileStep_some (day : Nat) (m : Matrix) (cp : String × Option ℚ)
    (p : ℚ) (h : cp.2 = some p) :
    reconcileStep day m cp =
      if rowExists m cp.1 then
        ⟨m.numDays, m.rows.map (fun r => if r.city = cp.1 then setCell r day p else r)⟩
      else
        ⟨m.numDays, m.rows ++ [setCell (blankRow cp.1 m.numDays) day p]⟩ := by
  simp only [reconcileStep, h]

/-- A city-preserving row map does not change which cities exist. -/
theorem any_city_map (rows : List MRow) (g : MRow → MRow)
    (hg : ∀ r, (g r).city = r.city) (c : String) :
    (rows.map g).any (fun r => r.city == c) = rows.any (fun r => r.city == c) := by
  induction rows with
  | nil => rfl
  | cons r rs ih => simp [hg, ih]

/-- A row map that preserves cities and fixes the rows of city `c` does not
change the first row found for `c`. -/
theorem find?_city_map (rows : List MRow) (g : MRow → MRow) (c : String)
    (hg : ∀ r, (g r).city = r.city) (hfix : ∀ r, r.city = c → g r = r) :
    (rows.map g).find? (fun r => r.city == c) =
      rows.find? (fun r => r.city == c) := by
  induction rows with
  | nil => rfl
  | cons r rs ih =>
    by_cases hc : r.city = c
    · rw [List.map_cons, List.find?_cons_of_pos _ (by simp [hg, hc]),
        List.find?_cons_of_pos _ (by simp [hc]), hfix r hc]
    · rw [List.map_cons, List.find?_cons_of_neg _ (by simp [hg, hc]),
        List.find?_cons_of_neg _ (by simp [hc]), ih]

/-- A row map that preserves cities and fixes the rows of city `c` does not
change the sublist of rows of city `c`. -/
theorem filter_city_map (rows : List MRow) (g : MRow → MRow) (c : String)
    (hg : ∀ r, (g r).city = r.city) (hfix : ∀ r, r.city = c → g r = r) :
    (rows.map g).filter (fun r => r.city == c) =
      rows.filter (fun r => r.city == c) := by
  induction rows with
  | nil => rfl
  | cons r rs ih =>
    by_cases hc : r.city = c
    · simp only [List.map_cons, List.filter_cons]
      rw [if_pos (by simp [hg, hc]), if_pos (by simp [hc]), hfix r hc, ih]
    · simp only [List.map_cons, List.filter_cons]
      rw [if_neg (by simp [hg, hc]), if_neg (by simp [hc]), ih]

/-- Unfolding `lastPrice` over a leading snapshot entry. -/
theorem lastPrice_cons (c : String) (cp : String × Option ℚ) (t : Snapshot) :
    lastPrice c (cp :: t) =
      match lastPrice c t with
      | some q => some q
      | none => if cp.1 = c then cp.2 else none := rfl

/-- A later price wins over the head entry. -/
theorem lastPrice_cons_of_some (c : String) (cp : String × Option ℚ)
    (t : Snapshot) (q : ℚ) (h : lastPrice c t = some q) :
    lastPrice c (cp :: t) = some q := by
  rw [lastPrice_cons, h]

/-- An absent head entry never contributes a price. -/
theorem lastPrice_cons_none (c : String) (cp : String × Option ℚ)
    (t : Snapshot) (hcp : cp.2 = none) :
    lastPrice c (cp :: t) = lastPrice c t := by
  rw [lastPrice_cons]
  cases lastPrice c t <;> simp [hcp]

/-- A head entry for another city never contributes a price. -/
theorem lastPrice_cons_ne (c : String) (cp : String × Option ℚ)
    (t : Snapshot) (h : cp.1 ≠ c) :
    lastPrice c (cp :: t) = lastPrice c t := by
  rw [lastPrice_cons]
  cases lastPrice c t <;> simp [h]

/-- Unfolding `updRow` when the snapshot carries a price for the row's
city. -/
theorem updRow_of_some (day : Nat) (s : Snapshot) (r : MRow) (p : ℚ)
    (h : lastPrice r.city s = some p) : updRow day s r = setCell r day p := by
  unfold updRow
  rw [h]

/-- Unfolding `updRow` when the snapshot carries no price for the row's
city. -/
theorem updRow_of_none (day : Nat) (s : Snapshot) (r : MRow)
    (h : lastPrice r.city s = none) : updRow day s r = r := by
  unfold updRow
  rw [h]

/-- Cities already present survive one reconciliation step. -/
theorem rowExists_step_mono (day : Nat) (m : Matrix) (cp : String × Option ℚ)
    (c : String) (h : rowExists m c = true) :
    rowExists (reconcileStep day m cp) c = true := by
  cases hcp : cp.2 with
  | none => rw [reconcileStep_none day m cp hcp]; exact h
  | some p =>
    rw [reconcileStep_some day m cp p hcp]
    split
    · rw [rowExists_mk, any_city_map _ _ (upd_city day p cp.1)]
      exact h
    · rw [rowExists_mk, List.any_append]
      rw [show m.rows.any (fun r => r.city == c) = true from h]
      rfl

/-- Cities already present survive a whole reconciliation pass. -/
theorem rowExists_reconcile_mono (day : Nat) :
    ∀ (s : Snapshot) (m : Matrix) (c : String),
      rowExists m c = true → rowExists (reconcile m day s) c = true := by
  intro s
  induction s with
  | nil => intro m c h; exact h
  | cons cp t ih =>
    intro m c h
    exact ih (reconcileStep day m cp) c (rowExists_step_mono day m cp c h)

/-- A priced snapshot entry guarantees its city a row after its own
step. -/
theorem rowExists_step_self (day : Nat) (m : Matrix) (cp : String × Option ℚ)
    (p : ℚ) (hp : cp.2 = some p) :
    rowExists (reconcileStep day m cp) cp.1 = true := by
  rw [reconcileStep_some day m cp p hp]
  split
  · next hex =>
    rw [rowExists_mk, any_city_map _ _ (upd_city day p cp.1)]
    exact hex
  · rw [rowExists_mk, List.any_append]
    have hnew : List.any [setCell (blankRow cp.1 m.numDays) day p]
        (fun r => r.city == cp.1) = true := by
      simp [setCell, blankRow]
    rw [hnew, Bool.or_true]

/-- Every city priced in the snapshot has a row after reconciliation. -/
theorem rowExists_reconcile_of_mem (day : Nat) :
    ∀ (s : Snapshot) (m : Matrix) (cp : String × Option ℚ),
      cp ∈ s → cp.2.isSome = true →
      rowExists (reconcile m day s) cp.1 = true := by
  intro s
  induction s with
  | nil => intro m cp h; exact absurd h (List.not_mem_nil cp)
  | cons hd t ih =>
    intro m cp hmem hsome
    rcases List.mem_cons.mp hmem with rfl | hmem2
    · obtain ⟨p, hp⟩ := Option.isSome_iff_exists.mp hsome
      exact rowExists_reconcile_mono day t _ _ (rowExists_step_self day m cp p hp)
    · exact ih (reconcileStep day m hd) cp hmem2 hsome

/-- The per-row update of a priced step composes with the rest of the
snapshot into the whole snapshot's net update. -/
theorem updRow_compose (day : Nat) (cp : String × Option ℚ) (p : ℚ)
    (t : Snapshot) (hcp : cp.2 = some p) (r : MRow) :
    updRow day t (if r.city = cp.1 then setCell r day p else r) =
      updRow day (cp :: t) r := by
  by_cases hc : r.city = cp.1
  · rw [if_pos hc]
    cases hlt : lastPrice r.city t with
    | some q =>
      rw [updRow_of_some day t _ q (by rw [setCell_city]; exact hlt),
        updRow_of_some day _ r q (lastPrice_cons_of_some _ cp t q hlt),
        setCell_setCell]
    | none =>
      rw [updRow_of_none day t _ (by rw [setCell_city]; exact hlt),
        updRow_of_some day _ r p
          (by simp only [lastPrice_cons, hlt]; rw [if_pos hc.symm, hcp])]
  · rw [if_neg hc]
    have hsame : lastPrice r.city (cp :: t) = lastPrice r.city t :=
      lastPrice_cons_ne r.city cp t (fun h => hc h.symm)
    cases hlt : lastPrice r.city t with
    | some q =>
      rw [updRow_of_some day t r q hlt, updRow_of_some day _ r q (hsame.trans hlt)]
    | none =>
      rw [updRow_of_none day t r hlt, updRow_of_none day _ r (hsame.trans hlt)]

/-- When every priced city of the snapshot already has a row, a
reconciliation pass is exactly the per-row net update (no appends). -/
theorem reconcile_of_all_exist (day : Nat) :
    ∀ (s : Snapshot) (m : Matrix),
      (∀ cp ∈ s, cp.2.isSome = true → rowExists m cp.1 = true) →
      reconcile m day s = ⟨m.numDays, m.rows.map (updRow day s)⟩ := by
  intro s
  induction s with
  | nil =>
    intro m _
    have hmap : m.rows.map (updRow day []) = m.rows := by
      have h1 : ∀ r ∈ m.rows, updRow day [] r = id r :=
        fun r _ => updRow_of_none day [] r rfl
      rw [List.map_congr_left h1, List.map_id]
    calc reconcile m day [] = ⟨m.numDays, m.rows⟩ := rfl
      _ = ⟨m.numDays, m.rows.map (updRow day [])⟩ := by rw [hmap]
  | cons cp t ih =>
    intro m H
    rw [reconcile, List.foldl_cons, ← reconcile]
    cases hcp : cp.2 with
    | none =>
      rw [reconcileStep_none day m cp hcp,
        ih m (fun cp2 h2 hs => H cp2 (List.mem_cons_of_mem _ h2) hs)]
      have h1 : ∀ r ∈ m.rows, updRow day t r = updRow day (cp :: t) r := by
        intro r _
        unfold updRow
        rw [lastPrice_cons_none r.city cp t hcp]
      rw [List.map_congr_left h1]
    | some p =>
      have hex : rowExists m cp.1 = true :=
        H cp (List.mem_cons_self cp t) (by rw [hcp]; rfl)
      rw [reconcileStep_some day m cp p hcp, if_pos hex,
        ih ⟨m.numDays, m.rows.map (fun r => if r.city = cp.1 then setCell r day p else r)⟩ ?_]
      · show Matrix.mk m.numDays
            ((m.rows.map (fun r => if r.city = cp.1 then setCell r day p else r)).map
              (updRow day t)) =
          Matrix.mk m.numDays (m.rows.map (updRow day (cp :: t)))
        rw [List.map_map]
        exact congrArg (Matrix.mk m.numDays)
          (List.map_congr_left (fun r _ => updRow_compose day cp p t hcp r))
      · intro cp2 h2 hs
        have h3 := H cp2 (List.mem_cons_of_mem _ h2) hs
        rw [rowExists_mk, any_city_map _ _ (upd_city day p cp.1)]
        exact h3

/-- A city with no priced entry in the snapshot keeps exactly its rows
through a reconciliation pass. -/
theorem reconcile_filter_city (day : Nat) :
    ∀ (t : Snapshot) (m : Matrix) (c : String),
      lastPrice c t = none →
      (reconcile m day t).rows.filter (fun r => r.city == c) =
        m.rows.filter (fun r => r.city == c) := by
  intro t
  induction t with
  | nil => intro m c _; rfl
  | cons cp t ih =>
    intro m c hlp
    have hlt : lastPrice c t = none := by
      cases h : lastPrice c t with
      | none => rfl
      | some q =>
        rw [lastPrice_cons_of_some c cp t q h] at hlp
        exact absurd hlp (by simp)
    have hcpc : cp.1 = c → cp.2 = none := by
      intro hc
      simp only [lastPrice_cons, hlt] at hlp
      rw [if_pos hc] at hlp
      exact hlp
    rw [reconcile, List.foldl_cons, ← reconcile]
    rw [ih (reconcileStep day m cp) c hlt]
    cases hcp : cp.2 with
    | none => rw [reconcileStep_none day m cp hcp]
    | some p =>
      have hne : cp.1 ≠ c := by
        intro hc
        have h2 := hcpc hc
        rw [hcp] at h2
        exact absurd h2 (by simp)
      rw [reconcileStep_some day m cp p hcp]
      split
      · exact filter_city_map m.rows _ c (upd_city day p cp.1)
          (fun r hrc => if_neg (fun hh => hne (hh.symm.trans hrc)))
      · show (m.rows ++ [setCell (blankRow cp.1 m.numDays) day p]).filter
            (fun r => r.city == c) = m.rows.filter (fun r => r.city == c)
        rw [List.filter_append]
        have hnew : List.filter (fun r => r.city == c)
            [setCell (blankRow cp.1 m.numDays) day p] = [] := by
          simp [setCell, blankRow, hne]
        rw [hnew, List.append_nil]

/-- Every row of a reconciled matrix has already absorbed its city's net
update from the snapshot. -/
theorem reconcile_absorbed (day : Nat) :
    ∀ (s : Snapshot) (m : Matrix) (r : MRow),
      r ∈ (reconcile m day s).rows → updRow day s r = r := by
  intro s
  induction s with
  | nil => intro m r _; exact updRow_of_none day [] r rfl
  | cons cp t ih =>
    intro m r hr
    rw [reconcile, List.foldl_cons, ← reconcile] at hr
    cases hlt : lastPrice r.city t with
    | some q =>
      have habs := ih (reconcileStep day m cp) r hr
      rw [updRow_of_some day t r q hlt] at habs
      rw [updRow_of_some day _ r q (lastPrice_cons_of_some _ cp t q hlt)]
      exact habs
    | none =>
      by_cases hceq : cp.1 = r.city
      · cases hcp : cp.2 with
        | none =>
          refine updRow_of_none day _ r ?_
          simp only [lastPrice_cons, hlt]
          rw [if_pos hceq, hcp]
        | some p =>
          rw [updRow_of_some day _ r p
            (by simp only [lastPrice_cons, hlt]; rw [if_pos hceq, hcp])]
          have hfil := reconcile_filter_city day t (reconcileStep day m cp) r.city hlt
          have hrmem : r ∈ (reconcileStep day m cp).rows.filter
              (fun x => x.city == r.city) := by
            rw [← hfil]
            exact List.mem_filter.mpr ⟨hr, by simp⟩
          have hrstep : r ∈ (reconcileStep day m cp).rows :=
            (List.mem_filter.mp hrmem).1
          rw [reconcileStep_some day m cp p hcp] at hrstep
          by_cases hex : rowExists m cp.1 = true
          · rw [if_pos hex] at hrstep
            have hrstep2 : r ∈ m.rows.map
                (fun r => if r.city = cp.1 then setCell r day p else r) := hrstep
            rcases List.mem_map.mp hrstep2 with ⟨r0, hr0, hgr⟩
            by_cases hr0c : r0.city = cp.1
            · rw [if_pos hr0c] at hgr
              rw [← hgr, setCell_setCell]
            · rw [if_neg hr0c] at hgr
              exact absurd (by rw [← hgr] at hceq; exact hceq.symm) hr0c
          · rw [if_neg hex] at hrstep
            have hrstep2 : r ∈ m.rows ++ [setCell (blankRow cp.1 m.numDays) day p] :=
              hrstep
            rcases List.mem_append.mp hrstep2 with hin | hin
            · exfalso
              apply hex
              exact List.any_eq_true.mpr ⟨r, hin, by simp [hceq.symm]⟩
            · have hrnew : r = setCell (blankRow cp.1 m.numDays) day p := by
                simpa using hin
              rw [hrnew, setCell_setCell]
      · have hlcons : lastPrice r.city (cp :: t) = none := by
          rw [lastPrice_cons_ne r.city cp t hceq, hlt]
        have habs := ih (reconcileStep day m cp) r hr
        rw [updRow_of_none day t r hlt] at habs
        exact updRow_of_none day _ r hlcons

/-- C1: reconciliation is idempotent — applying the same day and snapshot
twice yields the same matrix as applying it once. -/
theorem reconcile_idempotent (m : Matrix) (day : Nat) (s : Snapshot) :
    reconcile (reconcile m day s) day s = reconcile m day s := by
  rw [reconcile_of_all_exist day s (reconcile m day s)
    (fun cp hmem hsome => rowExists_reconcile_of_mem day s m cp hmem hsome)]
  have habs : ∀ r ∈ (reconcile m day s).rows, updRow day s r = id r :=
    fun r hr => reconcile_absorbed day s m r hr
  rw [List.map_congr_left habs, List.map_id]

/-- C2: no regression from absent — if the snapshot's entries for city `c`
are all absent, reconciliation leaves `c`'s row lookup unchanged: an
existing row (hence its cell for the reconciled day) is untouched, and no
row is created for `c` when it had none. -/
theorem reconcile_absent_no_regression (m : Matrix) (day : Nat)
    (s : Snapshot) (c : String) (h : ∀ p, (c, p) ∈ s → p = none) :
    findRow (reconcile m day s) c = findRow m c := by
  revert h
  induction s generalizing m with
  | nil => intro _; rfl
  | cons cp t ih =>
    intro h
    rw [reconcile, List.foldl_cons, ← reconcile]
    rw [ih (reconcileStep day m cp) (fun p hp => h p (List.mem_cons_of_mem _ hp))]
    cases hcp : cp.2 with
    | none => rw [reconcileStep_none day m cp hcp]
    | some p =>
      have hne : cp.1 ≠ c := by
        intro hceq
        have h3 : (c, cp.2) ∈ cp :: t := by
          rw [← hceq]
          exact List.mem_cons_self cp t
        have h2 : cp.2 = none := h cp.2 h3
        rw [hcp] at h2
        exact absurd h2 (by simp)
      rw [reconcileStep_some day m cp p hcp]
      split
      · rw [findRow_mk]
        exact find?_city_map m.rows _ c (upd_city day p cp.1)
          (fun r hrc => if_neg (fun hh => hne (hh.symm.trans hrc)))
      · rw [findRow_mk, List.find?_append]
        have hnew : List.find? (fun r => r.city == c)
            [setCell (blankRow cp.1 m.numDays) day p] = none := by
          simp [setCell, blankRow, hne]
        rw [hnew, Option.or_none]
        rfl

/-- Witness for C2: reconciling a snapshot whose Mumbai price is absent
(while Delhi carries a real price) leaves Mumbai's row — and its day-1
cell 500 — untouched. -/
theorem reconcile_absent_no_regression_witness :
    findRow (reconcile exMatrixC2 1 exSnapC2) "Mumbai" =
      findRow exMatrixC2 "Mumbai" :=
  reconcile_absent_no_regression exMatrixC2 1 exSnapC2 "Mumbai"
    (fun p hp => by
      rcases List.mem_cons.mp hp with h1 | h2
      · have h5 : "Mumbai" = "Delhi" := congrArg Prod.fst h1
        exact absurd h5 (by decide)
      · rcases List.mem_cons.mp h2 with h3 | h4
        · have h5 : p = none := congrArg Prod.snd h3
          exact h5
        · exact absurd h4 (List.not_mem_nil _))

/-- C3: after `recompute_averages`, every city row whose non-absent day
cells are nonempty carries their mean rounded to two decimal digits as
Average, every row with no day data carries the absent marker, and the
city and day cells come unchanged from a row of the input matrix. -/
theorem recompute_averages_correct (m : Matrix) (r : MRow)
    (hr : r ∈ (recompute_averages m).rows) :
    (r.cells.filterMap id = [] → r.avg = none) ∧
    (r.cells.filterMap id ≠ [] →
      r.avg = some (roundTo2 ((r.cells.filterMap id).sum /
        ((r.cells.filterMap id).length : ℚ)))) ∧
    ∃ r0 ∈ m.rows, r.city = r0.city ∧ r.cells = r0.cells := by
  simp only [recompute_averages, List.mem_map] at hr
  obtain ⟨r0, hr0, rfl⟩ := hr
  refine ⟨?_, ?_, ⟨r0, hr0, rfl, rfl⟩⟩
  · intro hnil
    simp only [rowAverage]
    rw [if_pos hnil]
  · intro hne
    simp only [rowAverage]
    rw [if_neg hne]

/-- Witness for C3: the spec's §8 example — day values 100, 120, absent,
110 yield Average 110. -/
theorem recompute_averages_correct_witness :
    (exRowC3.cells.filterMap id = [] → exRowC3.avg = none) ∧
    (exRowC3.cells.filterMap id ≠ [] →
      exRowC3.avg = some (roundTo2 ((exRowC3.cells.filterMap id).sum /
        ((exRowC3.cells.filterMap id).length : ℚ)))) ∧
    ∃ r0 ∈ exMatrixC3.rows, exRowC3.city = r0.city ∧ exRowC3.cells = r0.cells :=
  recompute_averages_correct exMatrixC3 exRowC3 (by decide)

end EggPrices
